import Mathlib

/-!
Verification of the chalisha-reporter pipeline: a shallow embedding of the
Playwright reporter (run aggregation, step capture, attachment relocation,
report-directory cleaning) and of the Azure blob storage uploader
(recursive directory mirroring, content typing, top-level error catching).

Paths are modelled as lists of segments (`List String`); the filesystem, where
a claim needs one, is a finite map from paths to file contents.  Machine
details that the claims do not touch (timestamps, JSON serialization) are not
modelled.
-/

/-! ### Path helpers (Node `path` module, as used by the sources) -/

/-- A filesystem path, as a list of segments. -/
abbrev Seg := List String

/-- Render a segment path with forward slashes, as `path.join` would on POSIX. -/
def segPathString (p : Seg) : String :=
  String.intercalate "/" p

/-- Helper for `extnameOf`: the suffix of the character list starting at the
last dot, when a dot occurs. -/
def extnameTail : List Char → Option (List Char)
  | [] => none
  | c :: cs =>
    match extnameTail cs with
    | some e => some e
    | none => if c = '.' then some (c :: cs) else none

/-- Node's `path.extname` on a base name: the substring from the last dot to
the end, except that a dot in the very first position does not count
(`".gitignore"` has no extension). -/
def extnameOf (s : String) : String :=
  match s.data with
  | [] => ""
  | _ :: cs =>
    match extnameTail cs with
    | some e => String.mk e
    | none => ""

/-- Length of the longest common leading run of two segment paths
(used by `path.relative`). -/
def commonLead : Seg → Seg → Nat
  | a :: as, b :: bs => if a = b then commonLead as bs + 1 else 0
  | _, _ => 0

/-- Node's `path.relative from to` for already-resolved segment paths:
climb out of the uncommon part of `src` with `..` segments, then descend
into the uncommon part of `dst`. -/
def relativeSegs (src dst : Seg) : Seg :=
  let n := commonLead src dst
  List.replicate (src.length - n) ".." ++ dst.drop n

/-! ### C1 — outcome counters (ChalishaReporter.onTestEnd, lines 89-107) -/

/-- A Playwright test status; `TestResult.status` in the reporter API is
exactly this five-way union. -/
inductive TestStatus where
  | passed
  | failed
  | skipped
  | timedOut
  | interrupted
deriving DecidableEq, Repr

/-- The five outcome counters held by the reporter. -/
structure Counters where
  passedCount : Nat
  failedCount : Nat
  skippedCount : Nat
  timedOutCount : Nat
  interruptedCount : Nat
deriving DecidableEq, Repr

/-- Counters at construction time (all fields initialised to 0). -/
def initialCounters : Counters :=
  { passedCount := 0, failedCount := 0, skippedCount := 0,
    timedOutCount := 0, interruptedCount := 0 }

/-- The `switch (result.status)` at the top of `onTestEnd`: increment exactly
the counter matching the status. -/
def onTestEndCounters (c : Counters) (status : TestStatus) : Counters :=
  match status with
  | .passed => { c with passedCount := c.passedCount + 1 }
  | .failed => { c with failedCount := c.failedCount + 1 }
  | .skipped => { c with skippedCount := c.skippedCount + 1 }
  | .timedOut => { c with timedOutCount := c.timedOutCount + 1 }
  | .interrupted => { c with interruptedCount := c.interruptedCount + 1 }

/-- Sum of the five outcome counters. -/
def countersSum (c : Counters) : Nat :=
  c.passedCount + c.failedCount + c.skippedCount + c.timedOutCount +
    c.interruptedCount

/-- Counters after a sequence of test-end events has been delivered. -/
def runCounters (events : List TestStatus) : Counters :=
  events.foldl onTestEndCounters initialCounters

theorem onTestEndCounters_sum (c : Counters) (s : TestStatus) :
    countersSum (onTestEndCounters c s) = countersSum c + 1 := by
  cases s <;> simp [onTestEndCounters, countersSum] <;> omega

theorem runCounters_aux (events : List TestStatus) (c : Counters) :
    countersSum (events.foldl onTestEndCounters c) =
      countersSum c + events.length := by
  induction events generalizing c with
  | nil => simp
  | cons e rest ih =>
    simp [List.foldl_cons, ih, onTestEndCounters_sum]
    omega

/-- C1: for every sequence of test-end events delivered to the aggregator, the
sum of the five outcome counters equals the number of test-end events
processed so far. -/
theorem counters_sum_eq_events_processed (events : List TestStatus) :
    countersSum (runCounters events) = events.length := by
  rw [runCounters, runCounters_aux]
  simp [initialCounters, countersSum]

/-! ### C2 — step capture (ChalishaReporter.captureNestedSteps, lines 257-269) -/

/-- A runner `TestStep`: title, duration, optional source location
(file segments and line number), nested child steps, and whether an error
object is attached (`!!step.error`). -/
inductive TestStep where
  | mk (title : String) (duration : Int) (location : Option (Seg × Nat))
      (steps : List TestStep) (hasError : Bool)

def TestStep.title : TestStep → String
  | .mk t _ _ _ _ => t

def TestStep.duration : TestStep → Int
  | .mk _ d _ _ _ => d

def TestStep.location : TestStep → Option (Seg × Nat)
  | .mk _ _ l _ _ => l

def TestStep.steps : TestStep → List TestStep
  | .mk _ _ _ s _ => s

def TestStep.hasError : TestStep → Bool
  | .mk _ _ _ _ e => e

/-- A captured `StepDetails` node as built by `captureNestedSteps`. -/
inductive StepDetails where
  | mk (name : String) (duration : Int) (location : String)
      (steps : List StepDetails) (error : Bool)

def StepDetails.steps : StepDetails → List StepDetails
  | .mk _ _ _ s _ => s

/-- The location string `relative(projectRoot, file):line`, or the empty
string when the step has no location. -/
def formatStepLocation (projectRoot : Seg) : Option (Seg × Nat) → String
  | some (file, line) =>
      segPathString (relativeSegs projectRoot file) ++ ":" ++ toString line
  | none => ""

/-- Capture `captureNestedSteps(steps, level)`: empty when the step list is
empty/absent or `level >= 4`; otherwise each step maps to a summary whose
children are the capture of its child steps at `level + 1`. -/
def captureNestedSteps (projectRoot : Seg) (steps : List TestStep)
    (level : Nat) : List StepDetails :=
  if h : steps.isEmpty ∨ 4 ≤ level then []
  else
    steps.map fun step =>
      StepDetails.mk step.title step.duration
        (formatStepLocation projectRoot step.location)
        (captureNestedSteps projectRoot step.steps (level + 1)) step.hasError
termination_by 4 - level
decreasing_by
  push_neg at h
  omega

/-- Depth of a forest of runner steps: 0 when empty, and a node contributes
one plus the depth of its child forest. -/
def stepForestDepth : List TestStep → Nat
  | [] => 0
  | .mk _ _ _ ss _ :: rest => max (1 + stepForestDepth ss) (stepForestDepth rest)

/-- Depth of a forest of captured step summaries. -/
def detailsForestDepth : List StepDetails → Nat
  | [] => 0
  | .mk _ _ _ ss _ :: rest =>
      max (1 + detailsForestDepth ss) (detailsForestDepth rest)

/-- Every node reached after descending `n` levels has an empty child list. -/
def forestChildrenEmptyAt : Nat → List StepDetails → Prop
  | 0, ds => ∀ d ∈ ds, d.steps = []
  | n + 1, ds => ∀ d ∈ ds, forestChildrenEmptyAt n d.steps

theorem captureNestedSteps_nil (projectRoot : Seg) (level : Nat) :
    captureNestedSteps projectRoot [] level = [] := by
  rw [captureNestedSteps]
  simp

theorem captureNestedSteps_level_ge (projectRoot : Seg) (steps : List TestStep)
    (level : Nat) (h : 4 ≤ level) :
    captureNestedSteps projectRoot steps level = [] := by
  rw [captureNestedSteps]
  simp [h]

theorem captureNestedSteps_level_lt (projectRoot : Seg) (steps : List TestStep)
    (level : Nat) (h : level < 4) :
    captureNestedSteps projectRoot steps level = steps.map (fun step =>
      StepDetails.mk step.title step.duration
        (formatStepLocation projectRoot step.location)
        (captureNestedSteps projectRoot step.steps (level + 1))
        step.hasError) := by
  rw [captureNestedSteps]
  rcases steps with _ | ⟨s, rest⟩
  · simp
  · have hcond : ¬((s :: rest).isEmpty ∨ 4 ≤ level) := by
      simp
      omega
    simp [hcond]
    omega

theorem captureNestedSteps_depth (k : Nat) :
    ∀ (level : Nat), level + k = 4 → ∀ (projectRoot : Seg)
      (steps : List TestStep),
      detailsForestDepth (captureNestedSteps projectRoot steps level) =
        min (stepForestDepth steps) k := by
  induction k with
  | zero =>
    intro level hlevel projectRoot steps
    rw [captureNestedSteps_level_ge projectRoot steps level (by omega)]
    simp [detailsForestDepth]
  | succ k ih =>
    intro level hlevel projectRoot steps
    rw [captureNestedSteps_level_lt projectRoot steps level (by omega)]
    induction steps with
    | nil => simp [detailsForestDepth, stepForestDepth]
    | cons s rest ihrest =>
      cases s with
      | mk t d l ss e =>
        rw [List.map_cons]
        rw [detailsForestDepth, stepForestDepth]
        rw [ihrest]
        have hss := ih (level + 1) (by omega) projectRoot ss
        simp only [TestStep.steps] at hss ⊢
        rw [hss]
        omega

theorem captureNestedSteps_children_empty (k : Nat) :
    ∀ (level : Nat), level + k = 3 → ∀ (projectRoot : Seg)
      (steps : List TestStep),
      forestChildrenEmptyAt k (captureNestedSteps projectRoot steps level) := by
  induction k with
  | zero =>
    intro level hlevel projectRoot steps
    rw [captureNestedSteps_level_lt projectRoot steps level (by omega)]
    intro d hd
    rcases List.mem_map.mp hd with ⟨s, _, rfl⟩
    simp [StepDetails.steps]
    exact captureNestedSteps_level_ge projectRoot s.steps (level + 1) (by omega)
  | succ k ih =>
    intro level hlevel projectRoot steps
    rw [captureNestedSteps_level_lt projectRoot steps level (by omega)]
    intro d hd
    rcases List.mem_map.mp hd with ⟨s, _, rfl⟩
    simp only [StepDetails.steps]
    exact ih (level + 1) (by omega) projectRoot s.steps

/-- C2: step capture returns an empty sequence when the input list is empty
or the level is at least 4; below level 4 it maps each step to a summary
whose child list is the capture of that step's children at the next level;
and on any input forest of depth 6 the output has depth exactly 4 with every
node at level 3 carrying an empty child list. -/
theorem captureNestedSteps_correct :
    (∀ (projectRoot : Seg) (level : Nat),
      captureNestedSteps projectRoot [] level = []) ∧
    (∀ (projectRoot : Seg) (steps : List TestStep) (level : Nat), 4 ≤ level →
      captureNestedSteps projectRoot steps level = []) ∧
    (∀ (projectRoot : Seg) (steps : List TestStep) (level : Nat), level < 4 →
      captureNestedSteps projectRoot steps level = steps.map (fun step =>
        StepDetails.mk step.title step.duration
          (formatStepLocation projectRoot step.location)
          (captureNestedSteps projectRoot step.steps (level + 1))
          step.hasError)) ∧
    (∀ (projectRoot : Seg) (steps : List TestStep),
      stepForestDepth steps = 6 →
      detailsForestDepth (captureNestedSteps projectRoot steps 0) = 4 ∧
      forestChildrenEmptyAt 3 (captureNestedSteps projectRoot steps 0)) := by
  refine ⟨captureNestedSteps_nil, captureNestedSteps_level_ge,
    captureNestedSteps_level_lt, ?_⟩
  intro projectRoot steps hdepth
  constructor
  · rw [captureNestedSteps_depth 4 0 rfl projectRoot steps, hdepth]
    omega
  · exact captureNestedSteps_children_empty 3 0 rfl projectRoot steps

/-- A linear chain of steps of depth 6. -/
def sampleDeepForest : List TestStep :=
  [.mk "a" 1 none [.mk "b" 1 none [.mk "c" 1 none [.mk "d" 1 none
    [.mk "e" 1 none [.mk "f" 1 none [] false] false] false] false] false]
    false]

theorem captureNestedSteps_correct_witness :
    detailsForestDepth (captureNestedSteps [] sampleDeepForest 0) = 4 ∧
    forestChildrenEmptyAt 3 (captureNestedSteps [] sampleDeepForest 0) :=
  captureNestedSteps_correct.2.2.2 [] sampleDeepForest (by
    simp [sampleDeepForest, stepForestDepth])

/-! ### C3 / C6 / C9 — attachment relocation (onTestEnd, lines 126-151) -/

/-- A result attachment: name, MIME type, optional local path, optional URL. -/
structure Attachment where
  name : String
  mimeType : String
  path : Option Seg
  url : Option String
deriving DecidableEq, Repr

/-- A filesystem: a map from (absolute or cwd-relative) segment paths
to file contents. -/
abbrev FS := Seg → Option String

/-- Model of `fs.copyFileSync(src, dst)`: after the call, `dst` holds the content read
at `src`; every other path is untouched. -/
def copyFileSync (fs : FS) (src dst : Seg) : FS :=
  fun p => if p = dst then fs src else fs p

/-- The pure part of the attachment-update map body: for an attachment with a
local path, build `reportDir/data/<fresh><ext>` and return the attachment
with the new path and with a URL `./` + `path.relative(projectRoot, newPath)`
(the new path resolved against the cwd, which is the project root).
Attachments without a local path pass through unchanged. -/
def relocateOne (projectRoot reportDir : Seg) (fresh : String)
    (a : Attachment) : Attachment :=
  match a.path with
  | some p =>
    let ext := extnameOf (p.getLastD "")
    let newFileName := fresh ++ ext
    let newFilePath := reportDir ++ ["data", newFileName]
    { a with
      path := some newFilePath,
      url := some ("./" ++
        segPathString (relativeSegs projectRoot (projectRoot ++ newFilePath))) }
  | none => a

/-- The attachment-update loop of `onTestEnd`: walk the attachment list,
drawing a fresh identifier (`uuid k`, `uuid (k+1)`, ...) for each attachment
that has a local path, copying its file into `reportDir/data`, and rewriting
its entry; attachments without a path are passed through and consume no
identifier.  Returns the updated attachment list and the filesystem after
all copies. -/
def relocateAttachments (projectRoot reportDir : Seg) (uuid : Nat → String) :
    Nat → List Attachment → FS → (List Attachment × FS)
  | _, [], fs => ([], fs)
  | k, a :: rest, fs =>
    match a.path with
    | some p =>
      let fs' := copyFileSync fs p
        (reportDir ++ ["data", uuid k ++ extnameOf (p.getLastD "")])
      let r := relocateAttachments projectRoot reportDir uuid (k + 1) rest fs'
      (relocateOne projectRoot reportDir (uuid k) a :: r.1, r.2)
    | none =>
      let r := relocateAttachments projectRoot reportDir uuid k rest fs
      (a :: r.1, r.2)

/-- The destination filenames the relocation loop assigns, in order, to the
attachments that have a local path. -/
def destNamesList (uuid : Nat → String) : Nat → List Attachment → List String
  | _, [] => []
  | k, a :: rest =>
    match a.path with
    | some p => (uuid k ++ extnameOf (p.getLastD "")) ::
        destNamesList uuid (k + 1) rest
    | none => destNamesList uuid k rest

/-- Number of attachments carrying a local path. -/
def countWithPath (as : List Attachment) : Nat :=
  (as.filter (fun a => a.path.isSome)).length

theorem commonLead_append (src rest : Seg) :
    commonLead src (src ++ rest) = src.length := by
  induction src with
  | nil => cases rest <;> simp [commonLead]
  | cons a as ih => simp [commonLead, ih]

theorem relativeSegs_append (src rest : Seg) :
    relativeSegs src (src ++ rest) = rest := by
  simp [relativeSegs, commonLead_append]

theorem countWithPath_cons (a : Attachment) (l : List Attachment) :
    countWithPath (a :: l) =
      (if a.path.isSome then 1 else 0) + countWithPath l := by
  simp [countWithPath, List.filter_cons]
  split <;> simp [Nat.add_comm]

theorem countWithPath_append (l₁ l₂ : List Attachment) :
    countWithPath (l₁ ++ l₂) = countWithPath l₁ + countWithPath l₂ := by
  simp [countWithPath, List.filter_append]

/-- Position-wise description of the relocated attachment list: the entry at
position `i` is the input entry, rewritten through `relocateOne` with the
fresh identifier numbered by how many path-carrying attachments precede it,
and passed through unchanged when it has no local path. -/
theorem relocateAttachments_get (pr rd : Seg) (uuid : Nat → String) :
    ∀ (as : List Attachment) (k : Nat) (fs : FS) (i : Nat),
      (relocateAttachments pr rd uuid k as fs).1.get? i =
        (as.get? i).map (fun a =>
          if a.path.isSome then
            relocateOne pr rd (uuid (k + countWithPath (as.take i))) a
          else a) := by
  intro as
  induction as with
  | nil => intro k fs i; simp [relocateAttachments]
  | cons a rest ih =>
    intro k fs i
    cases hp : a.path with
    | some p =>
      simp only [relocateAttachments, hp]
      cases i with
      | zero =>
        simp [hp, countWithPath]
      | succ i =>
        simp only [List.get?_cons_succ]
        rw [ih (k + 1) _ i]
        cases hb : rest.get? i with
        | none => simp [hb]
        | some b =>
          simp only [hb, Option.map_some, List.take_succ_cons,
            countWithPath_cons, hp, Option.isSome_some, if_true]
          by_cases hbp : b.path.isSome
          · have harith : k + 1 + countWithPath (rest.take i) =
                k + (1 + countWithPath (rest.take i)) := by omega
            simp only [hbp, if_true, harith]
          · simp [hbp]
    | none =>
      simp only [relocateAttachments, hp]
      cases i with
      | zero =>
        simp [hp]
      | succ i =>
        simp only [List.get?_cons_succ]
        rw [ih k _ i]
        cases hb : rest.get? i with
        | none => simp [hb]
        | some b =>
          simp only [hb, Option.map_some, List.take_succ_cons,
            countWithPath_cons, hp, Option.isSome_none]
          simp

/-- C3 (amended): for every attachment with a local path, relocation records a
new local path `reportDir/data/<name>` together with the URL `./` followed by
that same path — i.e. the URL locates the copied file relative to the project
root (the process working directory), since the new path is itself
cwd-relative and `path.relative(projectRoot, newFilePath)` strips nothing
further. -/
theorem relocate_url_relative_to_project_root (pr rd : Seg)
    (uuid : Nat → String) (k : Nat) (as : List Attachment) (fs : FS)
    (i : Nat) (a : Attachment) (p : Seg)
    (hi : as.get? i = some a) (hp : a.path = some p) :
    ∃ name,
      (relocateAttachments pr rd uuid k as fs).1.get? i = some
        { a with
          path := some (rd ++ ["data", name]),
          url := some ("./" ++ segPathString (rd ++ ["data", name])) } := by
  refine ⟨uuid (k + countWithPath (as.take i)) ++ extnameOf (p.getLastD ""),
    ?_⟩
  rw [relocateAttachments_get pr rd uuid as k fs i, hi]
  simp [relocateOne, hp, relativeSegs_append]

theorem relocate_url_relative_to_project_root_witness :
    ∃ name,
      (relocateAttachments ["home", "user", "proj"]
        ["reports", "chalisha-reporter"] (fun _ => "u1") 0
        [{ name := "screenshot", mimeType := "image/png",
           path := some ["tmp", "shot.png"], url := none }]
        (fun _ => none)).1.get? 0 = some
        { name := "screenshot", mimeType := "image/png",
          path := some (["reports", "chalisha-reporter"] ++ ["data", name]),
          url := some ("./" ++ segPathString
            (["reports", "chalisha-reporter"] ++ ["data", name])) } :=
  relocate_url_relative_to_project_root ["home", "user", "proj"]
    ["reports", "chalisha-reporter"] (fun _ => "u1") 0
    [{ name := "screenshot", mimeType := "image/png",
       path := some ["tmp", "shot.png"], url := none }]
    (fun _ => none) 0
    { name := "screenshot", mimeType := "image/png",
      path := some ["tmp", "shot.png"], url := none }
    ["tmp", "shot.png"] rfl rfl

/-- C3 (counterexample to the claim as stated): with the default report
directory, the recorded URL is `./reports/chalisha-reporter/data/u1.png`,
which differs from the URL of the copied file taken relative to the report
root (`./data/u1.png`): the URL is not relative to the report output
directory. -/
theorem relocate_url_report_root_cex :
    ((relocateAttachments ["home", "user", "proj"]
        ["reports", "chalisha-reporter"] (fun _ => "u1") 0
        [{ name := "screenshot", mimeType := "image/png",
           path := some ["tmp", "shot.png"], url := none }]
        (fun _ => none)).1.map (fun a => a.url)) ≠
      [some ("./" ++ segPathString (relativeSegs
        (["home", "user", "proj"] ++ ["reports", "chalisha-reporter"])
        (["home", "user", "proj"] ++
          (["reports", "chalisha-reporter"] ++ ["data", "u1.png"]))))] := by
  decide

theorem string_append_inj_left (s t a b : String)
    (hlen : s.length = t.length) (h : s ++ a = t ++ b) : s = t := by
  have hd : s.data ++ a.data = t.data ++ b.data := by
    have hc := congrArg String.data h
    simpa [String.data_append] using hc
  have hl : s.data.length = t.data.length := hlen
  have hdata := List.append_inj_left hd hl
  cases s
  cases t
  exact congrArg String.mk hdata

theorem countWithPath_take_le (as : List Attachment) (i j : Nat)
    (hij : i ≤ j) :
    countWithPath (as.take i) ≤ countWithPath (as.take j) := by
  have hsub : List.Sublist (as.take i) (as.take j) := by
    have : (as.take j).take i = as.take i := by
      rw [List.take_take]
      simp [Nat.min_eq_left hij]
    rw [← this]
    exact List.take_sublist i (as.take j)
  exact List.Sublist.length_le (List.Sublist.filter _ hsub)

theorem countWithPath_take_lt (as : List Attachment) (i j : Nat)
    (hij : i < j) (ai : Attachment) (hi : as.get? i = some ai)
    (hp : ai.path.isSome) :
    countWithPath (as.take i) < countWithPath (as.take j) := by
  have hstep : countWithPath (as.take (i + 1)) =
      countWithPath (as.take i) + 1 := by
    have hi' : as[i]? = some ai := by
      rw [← List.get?_eq_getElem?]
      exact hi
    rw [List.take_succ, hi', countWithPath_append]
    simp [countWithPath, List.filter, hp]
  have hmono := countWithPath_take_le as (i + 1) j hij
  omega

/-- C6: within a single relocation call, any two attachments that both carry
local paths are written to distinct destination filenames under
`reportDir/data`, provided the freshly drawn identifiers for this call are
pairwise distinct and of one common length (as uuid-v4 strings are). -/
theorem relocate_distinct_destinations (pr rd : Seg) (uuid : Nat → String)
    (k : Nat) (as : List Attachment) (fs : FS)
    (hinj : ∀ m, m < as.length → ∀ m', m' < as.length →
      uuid (k + m) = uuid (k + m') → m = m')
    (hlen : ∀ m, m < as.length → ∀ m', m' < as.length →
      (uuid (k + m)).length = (uuid (k + m')).length)
    (i j : Nat) (ai aj : Attachment) (pi pj : Seg) (hij : i ≠ j)
    (hi : as.get? i = some ai) (hpi : ai.path = some pi)
    (hj : as.get? j = some aj) (hpj : aj.path = some pj) :
    ∃ oi oj ni nj,
      (relocateAttachments pr rd uuid k as fs).1.get? i = some oi ∧
      (relocateAttachments pr rd uuid k as fs).1.get? j = some oj ∧
      oi.path = some (rd ++ ["data", ni]) ∧
      oj.path = some (rd ++ ["data", nj]) ∧
      ni ≠ nj := by
  have hilen : i < as.length := (List.get?_eq_some.mp hi).1
  have hjlen : j < as.length := (List.get?_eq_some.mp hj).1
  set ci := countWithPath (as.take i) with hci
  set cj := countWithPath (as.take j) with hcj
  have hcile : ci ≤ i := by
    have := List.length_filter_le (fun a => a.path.isSome) (as.take i)
    have hti : (as.take i).length ≤ i := by
      simp [List.length_take]
    simp only [countWithPath, hci]
    omega
  have hcjle : cj ≤ j := by
    have := List.length_filter_le (fun a => a.path.isSome) (as.take j)
    have htj : (as.take j).length ≤ j := by
      simp [List.length_take]
    simp only [countWithPath, hcj]
    omega
  have hcine : ci ≠ cj := by
    rcases Nat.lt_or_ge i j with hlt | hge
    · have := countWithPath_take_lt as i j hlt ai hi (by simp [hpi])
      omega
    · have hgt : j < i := by omega
      have := countWithPath_take_lt as j i hgt aj hj (by simp [hpj])
      omega
  refine ⟨relocateOne pr rd (uuid (k + ci)) ai,
    relocateOne pr rd (uuid (k + cj)) aj,
    uuid (k + ci) ++ extnameOf (pi.getLastD ""),
    uuid (k + cj) ++ extnameOf (pj.getLastD ""), ?_, ?_, ?_, ?_, ?_⟩
  · rw [relocateAttachments_get pr rd uuid as k fs i, hi]
    simp [hpi]
  · rw [relocateAttachments_get pr rd uuid as k fs j, hj]
    simp [hpj]
  · simp [relocateOne, hpi]
  · simp [relocateOne, hpj]
  · intro hcontra
    have huuid : uuid (k + ci) = uuid (k + cj) :=
      string_append_inj_left _ _ _ _
        (hlen ci (by omega) cj (by omega)) hcontra
    exact hcine (hinj ci (by omega) cj (by omega) huuid)

theorem relocate_distinct_destinations_witness :
    ∃ oi oj ni nj,
      (relocateAttachments ["proj"] ["reports"]
        (fun n => if n = 0 then "aa" else "bb") 0
        [{ name := "shot", mimeType := "image/png",
           path := some ["tmp", "shot.png"], url := none },
         { name := "shot", mimeType := "image/png",
           path := some ["tmp2", "shot.png"], url := none }]
        (fun _ => none)).1.get? 0 = some oi ∧
      (relocateAttachments ["proj"] ["reports"]
        (fun n => if n = 0 then "aa" else "bb") 0
        [{ name := "shot", mimeType := "image/png",
           path := some ["tmp", "shot.png"], url := none },
         { name := "shot", mimeType := "image/png",
           path := some ["tmp2", "shot.png"], url := none }]
        (fun _ => none)).1.get? 1 = some oj ∧
      oi.path = some (["reports"] ++ ["data", ni]) ∧
      oj.path = some (["reports"] ++ ["data", nj]) ∧
      ni ≠ nj :=
  relocate_distinct_destinations ["proj"] ["reports"]
    (fun n => if n = 0 then "aa" else "bb") 0
    [{ name := "shot", mimeType := "image/png",
       path := some ["tmp", "shot.png"], url := none },
     { name := "shot", mimeType := "image/png",
       path := some ["tmp2", "shot.png"], url := none }]
    (fun _ => none)
    (by decide)
    (by decide)
    0 1
    { name := "shot", mimeType := "image/png",
      path := some ["tmp", "shot.png"], url := none }
    { name := "shot", mimeType := "image/png",
      path := some ["tmp2", "shot.png"], url := none }
    ["tmp", "shot.png"] ["tmp2", "shot.png"]
    (by decide) rfl rfl rfl rfl

/-- The relocation loop writes only to `reportDir/data/<assigned name>`
paths: any other path keeps its filesystem content. -/
theorem relocateAttachments_fs_preserved (pr rd : Seg) (uuid : Nat → String) :
    ∀ (as : List Attachment) (k : Nat) (fs : FS) (q : Seg),
      (∀ n ∈ destNamesList uuid k as, rd ++ ["data", n] ≠ q) →
      (relocateAttachments pr rd uuid k as fs).2 q = fs q := by
  intro as
  induction as with
  | nil => intro k fs q _; simp [relocateAttachments]
  | cons a rest ih =>
    intro k fs q h
    cases hp : a.path with
    | some p =>
      have hn0 : rd ++ ["data", uuid k ++ extnameOf (p.getLastD "")] ≠ q := by
        apply h
        simp only [destNamesList, hp]
        exact List.mem_cons_self _ _
      have hrest : ∀ n ∈ destNamesList uuid (k + 1) rest,
          rd ++ ["data", n] ≠ q := by
        intro n hn
        apply h
        simp only [destNamesList, hp]
        exact List.mem_cons_of_mem _ hn
      simp only [relocateAttachments, hp]
      rw [ih (k + 1) _ q hrest]
      simp only [copyFileSync]
      rw [if_neg (Ne.symm hn0)]
    | none =>
      simp only [relocateAttachments, hp]
      exact ih k fs q (by
        intro n hn
        apply h
        simpa only [destNamesList, hp] using hn)

/-- Each relocated attachment's destination file holds exactly the content
that its source path held before the call. -/
theorem relocate_dest_content (pr rd : Seg) (uuid : Nat → String) :
    ∀ (as : List Attachment) (k : Nat) (fs : FS),
      (∀ a ∈ as, ∀ n ∈ destNamesList uuid k as,
        a.path ≠ some (rd ++ ["data", n])) →
      (destNamesList uuid k as).Nodup →
      ∀ (i : Nat) (a : Attachment) (p : Seg), as.get? i = some a →
        a.path = some p →
        ∃ o d, (relocateAttachments pr rd uuid k as fs).1.get? i = some o ∧
          o.path = some d ∧
          (relocateAttachments pr rd uuid k as fs).2 d = fs p := by
  intro as
  induction as with
  | nil => intro k fs _ _ i a p hi _; simp at hi
  | cons a0 rest ih =>
    intro k fs hfresh hnodup i a p hi hp
    cases hp0 : a0.path with
    | some p0 =>
      have hnames : destNamesList uuid k (a0 :: rest) =
          (uuid k ++ extnameOf (p0.getLastD "")) ::
            destNamesList uuid (k + 1) rest := by
        simp only [destNamesList, hp0]
      have hnodup' : (destNamesList uuid (k + 1) rest).Nodup := by
        rw [hnames] at hnodup
        exact hnodup.of_cons
      have hfresh' : ∀ b ∈ rest, ∀ n ∈ destNamesList uuid (k + 1) rest,
          b.path ≠ some (rd ++ ["data", n]) := by
        intro b hb n hn
        apply hfresh b (List.mem_cons_of_mem a0 hb) n
        rw [hnames]
        exact List.mem_cons_of_mem _ hn
      cases i with
      | zero =>
        have ha : a0 = a := by simpa using hi
        have hpp : p0 = p := by
          rw [← ha, hp0] at hp
          exact Option.some.inj hp
        refine ⟨relocateOne pr rd (uuid k) a,
          rd ++ ["data", uuid k ++ extnameOf (p0.getLastD "")],
          ?_, ?_, ?_⟩
        · simp only [relocateAttachments, hp0, List.get?_cons_zero]
          rw [ha]
        · rw [← ha]
          simp only [relocateOne, hp0]
        · simp only [relocateAttachments, hp0]
          rw [relocateAttachments_fs_preserved pr rd uuid rest (k + 1) _ _ (by
            intro n hn heq
            have h2 := List.append_inj_right heq rfl
            have hnn : n = uuid k ++ extnameOf (p0.getLastD "") := by
              simpa using h2
            rw [hnames] at hnodup
            rw [hnn] at hn
            exact (List.nodup_cons.mp hnodup).1 hn)]
          simp [copyFileSync, hpp]
      | succ i =>
        have hi' : rest.get? i = some a := by simpa using hi
        rcases ih (k + 1)
            (copyFileSync fs p0
              (rd ++ ["data", uuid k ++ extnameOf (p0.getLastD "")]))
            hfresh' hnodup' i a p hi' hp with ⟨o, d, ho, hod, hfs⟩
        have hpne : ¬(p = rd ++ ["data",
            uuid k ++ extnameOf (p0.getLastD "")]) := by
          intro hq
          exact hfresh a (List.mem_cons_of_mem a0 (List.get?_mem hi'))
            (uuid k ++ extnameOf (p0.getLastD ""))
            (by rw [hnames]; exact List.mem_cons_self _ _)
            (by rw [hp, hq])
        refine ⟨o, d, ?_, hod, ?_⟩
        · simp only [relocateAttachments, hp0, List.get?_cons_succ]
          exact ho
        · simp only [relocateAttachments, hp0]
          rw [hfs]
          simp only [copyFileSync]
          rw [if_neg hpne]
    | none =>
      cases i with
      | zero =>
        have ha : a0 = a := by simpa using hi
        rw [← ha, hp0] at hp
        cases hp
      | succ i =>
        have hi' : rest.get? i = some a := by simpa using hi
        have hnames : destNamesList uuid k (a0 :: rest) =
            destNamesList uuid k rest := by
          simp only [destNamesList, hp0]
        rcases ih k fs (by
            intro b hb n hn
            apply hfresh b (List.mem_cons_of_mem a0 hb) n
            rw [hnames]
            exact hn)
          (by rw [hnames] at hnodup; exact hnodup) i a p hi' hp with
          ⟨o, d, ho, hod, hfs⟩
        refine ⟨o, d, ?_, hod, ?_⟩
        · simp only [relocateAttachments, hp0, List.get?_cons_succ]
          exact ho
        · simp only [relocateAttachments, hp0]
          exact hfs


/-- C9: attachment relocation never deletes or modifies an original
attachment file.  Under the freshness guarantee for the generated
identifiers (no generated destination collides with a source path, and the
identifiers of one call are pairwise distinct), every source path keeps its
original content in the resulting filesystem, and each relocated entry's
destination file holds a copy of its source's original content. -/
theorem relocate_never_touches_originals (pr rd : Seg) (uuid : Nat → String)
    (as : List Attachment) (k : Nat) (fs : FS)
    (hfresh : ∀ a ∈ as, ∀ n ∈ destNamesList uuid k as,
      a.path ≠ some (rd ++ ["data", n]))
    (hnodup : (destNamesList uuid k as).Nodup) :
    (∀ a ∈ as, ∀ p, a.path = some p →
      (relocateAttachments pr rd uuid k as fs).2 p = fs p) ∧
    (∀ (i : Nat) (a : Attachment) (p : Seg), as.get? i = some a →
      a.path = some p →
      ∃ o d, (relocateAttachments pr rd uuid k as fs).1.get? i = some o ∧
        o.path = some d ∧
        (relocateAttachments pr rd uuid k as fs).2 d = fs p) := by
  constructor
  · intro a ha p hp
    apply relocateAttachments_fs_preserved
    intro n hn heq
    exact hfresh a ha n hn (by rw [hp, heq])
  · exact fun i a p hi hp =>
      relocate_dest_content pr rd uuid as k fs hfresh hnodup i a p hi hp

theorem relocate_never_touches_originals_witness :
    (∀ a ∈ [{ name := "shot", mimeType := "image/png",
              path := some ["tmp", "shot.png"], url := none : Attachment }],
      ∀ p, a.path = some p →
      (relocateAttachments ["proj"] ["reports"] (fun _ => "aa") 0
        [{ name := "shot", mimeType := "image/png",
           path := some ["tmp", "shot.png"], url := none }]
        (fun q => if q = ["tmp", "shot.png"] then some "data0" else none)).2
          p =
        (fun q => if q = ["tmp", "shot.png"] then some "data0" else none :
          FS) p) ∧
    (∀ (i : Nat) (a : Attachment) (p : Seg),
      ([{ name := "shot", mimeType := "image/png",
          path := some ["tmp", "shot.png"], url := none :
          Attachment }].get? i) = some a →
      a.path = some p →
      ∃ o d, (relocateAttachments ["proj"] ["reports"] (fun _ => "aa") 0
          [{ name := "shot", mimeType := "image/png",
             path := some ["tmp", "shot.png"], url := none }]
          (fun q => if q = ["tmp", "shot.png"] then some "data0" else
            none)).1.get? i = some o ∧
        o.path = some d ∧
        (relocateAttachments ["proj"] ["reports"] (fun _ => "aa") 0
          [{ name := "shot", mimeType := "image/png",
             path := some ["tmp", "shot.png"], url := none }]
          (fun q => if q = ["tmp", "shot.png"] then some "data0" else
            none)).2 d =
          (fun q => if q = ["tmp", "shot.png"] then some "data0" else none :
            FS) p) :=
  relocate_never_touches_originals ["proj"] ["reports"] (fun _ => "aa")
    [{ name := "shot", mimeType := "image/png",
       path := some ["tmp", "shot.png"], url := none }] 0
    (fun q => if q = ["tmp", "shot.png"] then some "data0" else none)
    (by decide) (by decide)

/-! ### C5 — report directory preparation (constructor, lines 66-74, and
cleanDirectory, lines 237-249) -/

/-- One entry of a directory listing: a name, whether it is a subdirectory,
and (for subdirectories) its own entries. -/
inductive DirEntry where
  | mk (name : String) (isDir : Bool) (children : List DirEntry)

def DirEntry.name : DirEntry → String
  | .mk n _ _ => n

/-- Effect of `fs.unlinkSync(dir/name)` or `fs.rmdirSync(dir/name,
recursive)` on the parent listing: the named entry disappears (for a
directory, together with its whole subtree, which lives inside it). -/
def removeEntry (content : List DirEntry) (n : String) : List DirEntry :=
  content.filter (fun e => e.name != n)

/-- Model of `cleanDirectory`: iterate over the (shallow) listing taken at entry and
remove each listed entry — files by unlink, directories by recursive
removal. -/
def cleanDirectory (content : List DirEntry) : List DirEntry :=
  content.foldl (fun acc e => removeEntry acc e.name) content

/-- The constructor's directory preparation: `none` models a missing report
directory, which `fs.mkdirSync(outputDir, recursive)` brings into existence
empty (parents included); an existing directory keeps existing and has its
content cleaned. -/
def prepareReportDir : Option (List DirEntry) → Option (List DirEntry)
  | none => some []
  | some content => some (cleanDirectory content)

theorem foldl_removeEntry_eq_nil :
    ∀ (l acc : List DirEntry),
      (∀ e ∈ acc, e.name ∈ l.map DirEntry.name) →
      l.foldl (fun acc e => removeEntry acc e.name) acc = [] := by
  intro l
  induction l with
  | nil =>
    intro acc h
    have : acc = [] := by
      apply List.eq_nil_iff_forall_not_mem.mpr
      intro e he
      exact absurd (h e he) (by simp)
    simpa using this
  | cons x xs ih =>
    intro acc h
    rw [List.foldl_cons]
    apply ih
    intro e he
    rcases List.mem_filter.mp he with ⟨hacc, hne⟩
    have hname := h e hacc
    simp only [List.map_cons, List.mem_cons] at hname
    rcases hname with heq | hmem
    · exact absurd heq (by simpa using hne)
    · exact hmem

theorem cleanDirectory_eq_nil (content : List DirEntry) :
    cleanDirectory content = [] := by
  apply foldl_removeEntry_eq_nil
  intro e he
  exact List.mem_map_of_mem DirEntry.name he

/-- C5: after construction the report directory exists and its listing is
empty — a pre-existing directory has every entry inside it removed (shallow
listing, directories removed recursively) while the directory itself
remains, and a missing directory is created (with parents). -/
theorem prepareReportDir_empty (st : Option (List DirEntry)) :
    prepareReportDir st = some [] := by
  cases st with
  | none => rfl
  | some content =>
    simp [prepareReportDir, cleanDirectory_eq_nil]

/-! ### C4 / C8 — Azure blob uploader
(azure-blob-storage-uploader.ts, lines 52-126) -/

/-- A node of the local report directory tree, in listing order. -/
inductive FsEntry where
  | file (name : String) (content : String)
  | dir (name : String) (entries : List FsEntry)

/-- A filesystem operation performed by the uploader. -/
inductive FsOp where
  | readdir (path : String)
  | readFile (path : String)
  | write (path : String) (content : String)
deriving DecidableEq, Repr

/-- One `blockBlobClient.uploadData` call: remote blob path, content type
header, uploaded bytes. -/
structure UploadCall where
  blobPath : String
  contentType : String
  content : String
deriving DecidableEq, Repr

/-- Model of `toLowerCase()`: lower-case every character. -/
def toLowerString (s : String) : String :=
  String.mk (s.data.map Char.toLower)

/-- Model of `getContentType`: fixed extension table, case-insensitive, with
`application/octet-stream` as the default. -/
def getContentType (fileName : String) : String :=
  let extension := toLowerString (extnameOf fileName)
  if extension = ".html" then "text/html"
  else if extension = ".json" then "application/json"
  else if extension = ".txt" then "text/plain"
  else if extension = ".png" then "image/png"
  else if extension = ".jpg" then "image/jpeg"
  else if extension = ".jpeg" then "image/jpeg"
  else "application/octet-stream"

/-- Model of the `replace(backslash-regex, '/')` call: turn every backslash into a forward
slash, as the uploader does on every joined blob path. -/
def normalizeSlashes (s : String) : String :=
  String.mk (s.data.map (fun c => if c = '\\' then '/' else c))

/-- Model of `path.join(p, n)` with the platform separator `sep`. -/
def joinLocal (sep : Char) (p n : String) : String :=
  p ++ String.singleton sep ++ n

/-- The body of `uploadDirectoryToBlobStorage`'s `for` loop, walking a
directory listing.  For each entry the blob path is
`path.join(remotePath, name)` with backslashes normalized to `/`.  A
directory entry recurses (its own `readdirSync` emitting a `readdir`
operation); a file entry reads the file (`readFile` operation) and uploads
it, with `readErr`/`uploadErr` as oracles for exceptions thrown by
`readFileSync`/`uploadData`.  Returns the filesystem-operation trace and
either the list of upload calls or the first escaped exception. -/
def uploadWalk (readErr uploadErr : String → Option String) (sep : Char) :
    List FsEntry → String → String →
    (List FsOp × Except String (List UploadCall))
  | [], _, _ => ([], .ok [])
  | .dir name children :: rest, directoryPath, remotePath =>
    let localFilePath := joinLocal sep directoryPath name
    let blobPath := normalizeSlashes (joinLocal sep remotePath name)
    let rsub := uploadWalk readErr uploadErr sep children localFilePath
      blobPath
    (match rsub.2 with
     | .error e => (FsOp.readdir localFilePath :: rsub.1, .error e)
     | .ok calls₁ =>
       let rrest := uploadWalk readErr uploadErr sep rest directoryPath
         remotePath
       (FsOp.readdir localFilePath :: (rsub.1 ++ rrest.1),
        match rrest.2 with
        | .error e => .error e
        | .ok calls₂ => .ok (calls₁ ++ calls₂)))
  | .file name content :: rest, directoryPath, remotePath =>
    let localFilePath := joinLocal sep directoryPath name
    let blobPath := normalizeSlashes (joinLocal sep remotePath name)
    match readErr localFilePath with
    | some e => ([FsOp.readFile localFilePath], .error e)
    | none =>
      match uploadErr blobPath with
      | some e => ([FsOp.readFile localFilePath], .error e)
      | none =>
        let rrest := uploadWalk readErr uploadErr sep rest directoryPath
          remotePath
        (FsOp.readFile localFilePath :: rrest.1,
         match rrest.2 with
         | .error e => .error e
         | .ok calls => .ok (UploadCall.mk blobPath
            (getContentType name) content :: calls))

/-- Model of `uploadDirectoryToBlobStorage(directoryPath, _, remotePath)`: list the
directory, then process each entry in listing order. -/
def uploadDirectoryToBlobStorage (readErr uploadErr : String → Option String)
    (sep : Char) (entries : List FsEntry) (directoryPath remotePath : String) :
    List FsOp × Except String (List UploadCall) :=
  let r := uploadWalk readErr uploadErr sep entries directoryPath remotePath
  (FsOp.readdir directoryPath :: r.1, r.2)

/-- The fixed three-segment remote destination root
`chalisha-reporter/<appName>/<runId>`. -/
def remoteRootPath (appName runId : String) : String :=
  "chalisha-reporter/" ++ appName ++ "/" ++ runId

/-- Outcome of `uploadPlaywrightReport` as its caller observes it. -/
inductive UploadResult where
  | done (calls : List UploadCall)
  | failedLogged (message : String)
deriving DecidableEq, Repr

/-- The `try` body of `uploadPlaywrightReport`: create the container
(`createErr` is the oracle for a `createIfNotExists` exception), then
mirror the local report directory to the remote root. -/
def uploadPlaywrightReportBody (createErr : Option String)
    (readErr uploadErr : String → Option String) (sep : Char)
    (tree : List FsEntry) (localReportDir appName runId : String) :
    List FsOp × Except String (List UploadCall) :=
  match createErr with
  | some e => ([], .error e)
  | none => uploadDirectoryToBlobStorage readErr uploadErr sep tree
      localReportDir (remoteRootPath appName runId)

/-- Model of `uploadPlaywrightReport`: the whole body runs inside a catch,
so the caller always receives a normal completion (`Except.ok`): either the
successful call list or a logged failure message. -/
def uploadPlaywrightReport (createErr : Option String)
    (readErr uploadErr : String → Option String) (sep : Char)
    (tree : List FsEntry) (localReportDir appName runId : String) :
    List FsOp × Except String UploadResult :=
  let b := uploadPlaywrightReportBody createErr readErr uploadErr sep tree
    localReportDir appName runId
  (b.1, .ok (match b.2 with
    | .ok calls => UploadResult.done calls
    | .error e => UploadResult.failedLogged e))

/-- True when the string contains no backslash character. -/
def noBackslash (s : String) : Bool :=
  s.data.all (fun c => c != '\\')

/-- True when no entry name anywhere in the tree contains a backslash. -/
def treeNoBackslash : List FsEntry → Bool
  | [] => true
  | .file name _ :: rest => noBackslash name && treeNoBackslash rest
  | .dir name children :: rest =>
      noBackslash name && treeNoBackslash children && treeNoBackslash rest

/-- Written after the spec's words, for comparison with the code: the
descendant files of a tree, each listed exactly once in traversal order,
with its `/`-joined relative path, its base name and its content. -/
def specMirrorFiles : List FsEntry → List (String × String × String)
  | [] => []
  | .file name content :: rest => (name, name, content) :: specMirrorFiles rest
  | .dir name children :: rest =>
      (specMirrorFiles children).map
        (fun x => (name ++ "/" ++ x.1, x.2.1, x.2.2)) ++ specMirrorFiles rest

/-- Written after the spec's words: mirroring to remote prefix `P` uploads
every descendant file exactly once, at `P` joined with the file's relative
path by `/` separators, with the content type given by the extension
table. -/
def specMirrorCalls (P : String) (t : List FsEntry) : List UploadCall :=
  (specMirrorFiles t).map (fun x =>
    UploadCall.mk (P ++ "/" ++ x.1) (getContentType x.2.1) x.2.2)

theorem normalizeSlashes_append (a b : String) :
    normalizeSlashes (a ++ b) = normalizeSlashes a ++ normalizeSlashes b := by
  cases a with
  | mk da =>
    cases b with
    | mk db =>
      exact congrArg String.mk (List.map_append _ da db)

theorem map_slash_id (ds : List Char) (hall : ∀ c ∈ ds, c ≠ '\\') :
    ds.map (fun c => if c = '\\' then '/' else c) = ds := by
  induction ds with
  | nil => rfl
  | cons c cs ih =>
    rw [List.map_cons, if_neg (hall c (List.mem_cons_self c cs)),
      ih (fun x hx => hall x (List.mem_cons_of_mem _ hx))]

theorem normalizeSlashes_of_noBackslash (s : String)
    (h : noBackslash s = true) : normalizeSlashes s = s := by
  cases s with
  | mk ds =>
    have hall : ∀ c ∈ ds, c ≠ '\\' := by
      simpa [noBackslash] using h
    exact congrArg String.mk (map_slash_id ds hall)

theorem normalizeSlashes_singleton_slash :
    normalizeSlashes (String.singleton '/') = "/" := by decide

theorem normalizeSlashes_singleton_backslash :
    normalizeSlashes (String.singleton '\\') = "/" := by decide

theorem normalizeSlashes_joinLocal (sep : Char)
    (hsep : sep = '/' ∨ sep = '\\') (p n : String)
    (hp : noBackslash p = true) (hn : noBackslash n = true) :
    normalizeSlashes (joinLocal sep p n) = p ++ "/" ++ n := by
  have hps := normalizeSlashes_of_noBackslash p hp
  have hns := normalizeSlashes_of_noBackslash n hn
  rcases hsep with h | h <;> subst h <;>
    simp [joinLocal, normalizeSlashes_append, hps, hns,
      normalizeSlashes_singleton_slash, normalizeSlashes_singleton_backslash,
      String.append_assoc]

theorem noBackslash_normalizeSlashes (s : String) :
    noBackslash (normalizeSlashes s) = true := by
  cases s with
  | mk ds =>
    simp only [noBackslash, normalizeSlashes]
    rw [List.all_eq_true]
    intro c hc
    rcases List.mem_map.mp hc with ⟨c0, _, rfl⟩
    by_cases h : c0 = '\\' <;> simp [h]

theorem specMirrorCalls_file (P name content : String) (rest : List FsEntry) :
    specMirrorCalls P (.file name content :: rest) =
      UploadCall.mk (P ++ "/" ++ name) (getContentType name) content ::
        specMirrorCalls P rest := by
  simp [specMirrorCalls, specMirrorFiles]

theorem specMirrorCalls_dir (P name : String)
    (children rest : List FsEntry) :
    specMirrorCalls P (.dir name children :: rest) =
      specMirrorCalls (P ++ "/" ++ name) children ++
        specMirrorCalls P rest := by
  simp only [specMirrorCalls, specMirrorFiles, List.map_append, List.map_map]
  congr 1
  apply List.map_congr_left
  intro x _
  simp [Function.comp, String.append_assoc]

theorem uploadWalk_mirror (sep : Char) (hsep : sep = '/' ∨ sep = '\\') :
    ∀ (t : List FsEntry) (directoryPath P : String),
      noBackslash P = true → treeNoBackslash t = true →
      (uploadWalk (fun _ => none) (fun _ => none) sep t directoryPath P).2 =
        .ok (specMirrorCalls P t) := by
  intro t dp P
  induction t, dp, P
    using uploadWalk.induct (fun _ => (none : Option String))
      (fun _ => (none : Option String)) sep with
  | case1 dp P =>
    intro _ _
    simp [uploadWalk, specMirrorCalls, specMirrorFiles]
  | case2 name children rest dp P lfp bp rsub e hx ih1 =>
    intro hP ht
    simp only [treeNoBackslash, Bool.and_eq_true] at ht
    have hch : (uploadWalk (fun _ => none) (fun _ => none) sep children
        (joinLocal sep dp name)
        (normalizeSlashes (joinLocal sep P name))).2 =
        Except.ok (specMirrorCalls
          (normalizeSlashes (joinLocal sep P name)) children) :=
      ih1 (noBackslash_normalizeSlashes _) ht.1.2
    have hx' : (uploadWalk (fun _ => none) (fun _ => none) sep children
        (joinLocal sep dp name)
        (normalizeSlashes (joinLocal sep P name))).2 = Except.error e := hx
    rw [hch] at hx'
    cases hx'
  | case3 name children rest dp P lfp bp rsub calls₂ hx ih2 ih1 =>
    intro hP ht
    simp only [treeNoBackslash, Bool.and_eq_true] at ht
    have hch : (uploadWalk (fun _ => none) (fun _ => none) sep children
        (joinLocal sep dp name)
        (normalizeSlashes (joinLocal sep P name))).2 =
        Except.ok (specMirrorCalls
          (normalizeSlashes (joinLocal sep P name)) children) :=
      ih2 (noBackslash_normalizeSlashes _) ht.1.2
    have hrest : (uploadWalk (fun _ => none) (fun _ => none) sep rest dp
        P).2 = Except.ok (specMirrorCalls P rest) := ih1 hP ht.2
    simp only [uploadWalk]
    rw [hch, hrest]
    rw [specMirrorCalls_dir,
      normalizeSlashes_joinLocal sep hsep P name hP ht.1.1]
  | case4 name content rest dp P lfp e hx =>
    intro _ _
    simp at hx
  | case5 name content rest dp P lfp bp hx1 e hx =>
    intro _ _
    simp at hx
  | case6 name content rest dp P lfp bp hx1 hx2 ih1 =>
    intro hP ht
    simp only [treeNoBackslash, Bool.and_eq_true] at ht
    have hrest : (uploadWalk (fun _ => none) (fun _ => none) sep rest dp
        P).2 = Except.ok (specMirrorCalls P rest) := ih1 hP ht.2
    simp only [uploadWalk]
    rw [hrest]
    rw [specMirrorCalls_file,
      normalizeSlashes_joinLocal sep hsep P name hP ht.1]

/-- C4: with no I/O failures, mirroring a local tree to remote prefix `P`
uploads exactly the calls of the spec-side mirror: each descendant file
exactly once, at `P` joined with its relative path by `/` separators
(whatever the local separator convention `sep` is), with the content type
from the fixed extension table. -/
theorem uploadDirectoryToBlobStorage_mirror (sep : Char)
    (hsep : sep = '/' ∨ sep = '\\') (t : List FsEntry)
    (directoryPath P : String) (hP : noBackslash P = true)
    (ht : treeNoBackslash t = true) :
    (uploadDirectoryToBlobStorage (fun _ => none) (fun _ => none) sep t
      directoryPath P).2 = .ok (specMirrorCalls P t) := by
  simp only [uploadDirectoryToBlobStorage]
  exact uploadWalk_mirror sep hsep t directoryPath P hP ht

theorem uploadDirectoryToBlobStorage_mirror_witness :
    (uploadDirectoryToBlobStorage (fun _ => none) (fun _ => none) '\\'
      [.file "a.json" "ca", .dir "sub" [.file "b.png" "cb"]]
      "root" "P").2 =
      .ok [UploadCall.mk "P/a.json" "application/json" "ca",
        UploadCall.mk "P/sub/b.png" "image/png" "cb"] := by
  rw [uploadDirectoryToBlobStorage_mirror '\\' (Or.inr rfl)
    [.file "a.json" "ca", .dir "sub" [.file "b.png" "cb"]]
    "root" "P" (by decide) (by simp only [treeNoBackslash]; decide)]
  simp only [specMirrorCalls, specMirrorFiles, List.map_append,
    List.map_cons, List.map_nil, List.nil_append, List.append_nil,
    Except.ok.injEq]
  decide

theorem uploadWalk_no_write (readErr uploadErr : String → Option String)
    (sep : Char) :
    ∀ (t : List FsEntry) (dp rp : String), ∀ (p c : String),
      FsOp.write p c ∉ (uploadWalk readErr uploadErr sep t dp rp).1 := by
  intro t dp rp
  induction t, dp, rp using uploadWalk.induct readErr uploadErr sep with
  | case1 dp rp =>
    intro p c
    simp [uploadWalk]
  | case2 name children rest dp rp lfp bp rsub e hx ih1 =>
    intro p c
    have hx' : (uploadWalk readErr uploadErr sep children
        (joinLocal sep dp name)
        (normalizeSlashes (joinLocal sep rp name))).2 = Except.error e := hx
    simp only [uploadWalk]
    rw [hx']
    simp only [List.mem_cons]
    rintro (h | h)
    · cases h
    · exact ih1 p c h
  | case3 name children rest dp rp lfp bp rsub calls₂ hx ih2 ih1 =>
    intro p c
    have hx' : (uploadWalk readErr uploadErr sep children
        (joinLocal sep dp name)
        (normalizeSlashes (joinLocal sep rp name))).2 =
        Except.ok calls₂ := hx
    simp only [uploadWalk]
    rw [hx']
    simp only [List.mem_cons, List.mem_append]
    rintro (h | h | h)
    · cases h
    · exact ih2 p c h
    · exact ih1 p c h
  | case4 name content rest dp rp lfp e hx =>
    intro p c
    simp only [uploadWalk]
    rw [hx]
    simp
  | case5 name content rest dp rp lfp bp hx1 e hx =>
    intro p c
    simp only [uploadWalk]
    rw [hx1, hx]
    simp
  | case6 name content rest dp rp lfp bp hx1 hx2 ih1 =>
    intro p c
    simp only [uploadWalk]
    rw [hx1, hx2]
    simp only [List.mem_cons]
    rintro (h | h)
    · cases h
    · exact ih1 p c h

/-- C8: every error raised inside the publish body — container creation,
directory listing, file read or upload — is caught at the top of
`uploadPlaywrightReport`, logged into the returned value, and swallowed:
the caller always observes a normal completion (`Except.ok`), and the
operation performs no write to the local filesystem, so the report files
persisted at `onEnd` are untouched whatever the upload outcome. -/
theorem uploadPlaywrightReport_catches (createErr : Option String)
    (readErr uploadErr : String → Option String) (sep : Char)
    (tree : List FsEntry) (localReportDir appName runId : String) :
    (∃ r, (uploadPlaywrightReport createErr readErr uploadErr sep tree
      localReportDir appName runId).2 = Except.ok r) ∧
    (∀ e, (uploadPlaywrightReportBody createErr readErr uploadErr sep tree
        localReportDir appName runId).2 = Except.error e →
      (uploadPlaywrightReport createErr readErr uploadErr sep tree
        localReportDir appName runId).2 =
        Except.ok (UploadResult.failedLogged e)) ∧
    (∀ calls, (uploadPlaywrightReportBody createErr readErr uploadErr sep
        tree localReportDir appName runId).2 = Except.ok calls →
      (uploadPlaywrightReport createErr readErr uploadErr sep tree
        localReportDir appName runId).2 =
        Except.ok (UploadResult.done calls)) ∧
    (∀ p c, FsOp.write p c ∉ (uploadPlaywrightReport createErr readErr
      uploadErr sep tree localReportDir appName runId).1) := by
  refine ⟨?_, ?_, ?_, ?_⟩
  · cases hb : (uploadPlaywrightReportBody createErr readErr uploadErr sep
        tree localReportDir appName runId).2 with
    | ok calls =>
      exact ⟨UploadResult.done calls, by simp [uploadPlaywrightReport, hb]⟩
    | error e =>
      exact ⟨UploadResult.failedLogged e, by
        simp [uploadPlaywrightReport, hb]⟩
  · intro e he
    simp [uploadPlaywrightReport, he]
  · intro calls hc
    simp [uploadPlaywrightReport, hc]
  · intro p c
    cases createErr with
    | some e =>
      simp [uploadPlaywrightReport, uploadPlaywrightReportBody]
    | none =>
      simp only [uploadPlaywrightReport, uploadPlaywrightReportBody,
        uploadDirectoryToBlobStorage, List.mem_cons]
      rintro (h | h)
      · cases h
      · exact uploadWalk_no_write readErr uploadErr sep tree localReportDir
          (remoteRootPath appName runId) p c h

theorem uploadPlaywrightReport_catches_witness :
    (uploadPlaywrightReport (some "boom") (fun _ => none) (fun _ => none)
      '/' [] "reports" "app" "run").2 =
      Except.ok (UploadResult.failedLogged "boom") :=
  (uploadPlaywrightReport_catches (some "boom") (fun _ => none)
    (fun _ => none) '/' [] "reports" "app" "run").2.1 "boom" rfl

/-! ### C7 — onExit skips upload without a connection string
(ChalishaReporter.onExit, lines 215-231) -/

/-- The reporter's Azure options block. -/
structure AzureBlobStorageOptions where
  containerName : Option String
  connectionString : Option String
deriving DecidableEq, Repr

/-- The `uploaders` options block. -/
structure UploadersOptions where
  azureBlobStorage : Option AzureBlobStorageOptions
deriving DecidableEq, Repr

/-- The recognized reporter options. -/
structure ChalishaReporterOptions where
  reportDir : Option String
  reportFileName : Option String
  resultFileName : Option String
  uploaders : Option UploadersOptions
deriving DecidableEq, Repr

/-- Value of the option chain connectionString, defaulting to the empty string. -/
def azureConnectionStringOf (o : ChalishaReporterOptions) : String :=
  ((o.uploaders.bind (fun u => u.azureBlobStorage)).bind
    (fun a => a.connectionString)).getD ""

/-- Value of the option chain containerName, defaulting to `reports`
(an empty string is falsy and also falls back to the default). -/
def azureContainerNameOf (o : ChalishaReporterOptions) : String :=
  let c := ((o.uploaders.bind (fun u => u.azureBlobStorage)).bind
    (fun a => a.containerName)).getD ""
  if c = "" then "reports" else c

/-- Whether `new AzureBlobStorageUploader(...)` ran, and with what
configuration. -/
inductive UploaderConstruction where
  | skipped
  | constructed (connectionString containerName : String)
deriving DecidableEq, Repr

/-- The `AzureBlobStorageUploader` constructor: throws when the connection
string is empty, otherwise builds the client. -/
def azureUploaderNew (connectionString containerName : String) :
    Except String UploaderConstruction :=
  if connectionString = "" then
    .error "Azure Storage connection string is missing!"
  else .ok (.constructed connectionString containerName)

/-- Model of `onExit`: resolve the connection string (default empty) and container
name (default `reports`); when the connection string is non-empty,
construct the uploader and await `uploadPlaywrightReport`; otherwise return
immediately.  The result records whether an uploader was constructed and
the upload outcome (`none` = no container/upload activity attempted). -/
def onExitUpload (o : ChalishaReporterOptions) (createErr : Option String)
    (readErr uploadErr : String → Option String) (sep : Char)
    (tree : List FsEntry) (localReportDir appName runId : String) :
    Except String (UploaderConstruction × Option UploadResult) :=
  let azureConnectionString := azureConnectionStringOf o
  let azureContainerName := azureContainerNameOf o
  if azureConnectionString ≠ "" then
    match azureUploaderNew azureConnectionString azureContainerName with
    | .error e => .error e
    | .ok u =>
      match (uploadPlaywrightReport createErr readErr uploadErr sep tree
          localReportDir appName runId).2 with
      | .ok r => .ok (u, some r)
      | .error e => .error e
  else
    .ok (.skipped, none)

/-- C7: when the configured Azure connection string is absent or empty,
`onExit` completes normally without constructing the uploader and without
attempting any container or upload activity. -/
theorem onExit_skips_without_connection_string
    (o : ChalishaReporterOptions) (createErr : Option String)
    (readErr uploadErr : String → Option String) (sep : Char)
    (tree : List FsEntry) (localReportDir appName runId : String)
    (h : azureConnectionStringOf o = "") :
    onExitUpload o createErr readErr uploadErr sep tree localReportDir
      appName runId = .ok (.skipped, none) := by
  simp [onExitUpload, h]

theorem onExit_skips_without_connection_string_witness :
    onExitUpload
      (ChalishaReporterOptions.mk none none none none)
      none (fun _ => none) (fun _ => none) '/' [] "reports" "app" "run" =
      .ok (.skipped, none) :=
  onExit_skips_without_connection_string
    (ChalishaReporterOptions.mk none none none none)
    none (fun _ => none) (fun _ => none) '/' [] "reports" "app" "run" rfl

/-! ### C10 — browser context defaults (onBegin, lines 76-87, and the
lookup at onTestEnd, lines 110-111) -/

/-- A viewport size. -/
structure Viewport where
  width : Nat
  height : Nat
deriving DecidableEq, Repr

/-- A project's `use` settings; `none` models an omitted or falsy value
(for the boolean settings, `x || false` gives the same result whether `x`
is `false` or absent). -/
structure ProjectUse where
  headless : Option Bool
  viewport : Option Viewport
  isMobile : Option Bool
  hasTouch : Option Bool
deriving DecidableEq, Repr

/-- A configured project. -/
structure Project where
  name : String
  use : ProjectUse
deriving DecidableEq, Repr

/-- The stored per-project browser descriptor. -/
structure BrowserContext where
  name : String
  headless : Bool
  viewport : Viewport
  isMobile : Bool
  hasTouch : Bool
deriving DecidableEq, Repr

/-- The object literal built for one project in `onBegin`:
`name || 'unknown'`, `headless || false`,
`viewport || {width: 1280, height: 720}`, `isMobile || false`,
`hasTouch || false`. -/
def mkBrowserContext (p : Project) : BrowserContext :=
  { name := if p.name = "" then "unknown" else p.name,
    headless := p.use.headless.getD false,
    viewport := p.use.viewport.getD (Viewport.mk 1280 720),
    isMobile := p.use.isMobile.getD false,
    hasTouch := p.use.hasTouch.getD false }

/-- Model of `onBegin`: starting from an empty object, assign
`browserInfo[project.name] = {...}` for each project in order. -/
def onBeginBrowserInfo (projects : List Project) :
    String → Option BrowserContext :=
  projects.foldl
    (fun info p => fun key =>
      if key = p.name then some (mkBrowserContext p) else info key)
    (fun _ => none)

/-- The value of `browserInfo[browserName] || {}` at `onTestEnd`: a stored
context, or the empty object when the name lookup fails. -/
inductive BrowserLookup where
  | empty
  | ctx (c : BrowserContext)
deriving DecidableEq, Repr

/-- The browser resolution performed by `onTestEnd`. -/
def lookupBrowser (info : String → Option BrowserContext)
    (browserName : String) : BrowserLookup :=
  match info browserName with
  | some c => .ctx c
  | none => .empty

theorem onBeginBrowserInfo_some :
    ∀ (projects : List Project)
      (init : String → Option BrowserContext) (key : String)
      (c : BrowserContext),
      (projects.foldl
        (fun info p => fun key =>
          if key = p.name then some (mkBrowserContext p) else info key)
        init) key = some c →
      (∃ p ∈ projects, p.name = key ∧ c = mkBrowserContext p) ∨
        init key = some c := by
  intro projects
  induction projects with
  | nil => intro init key c h; exact Or.inr h
  | cons p rest ih =>
    intro init key c h
    rw [List.foldl_cons] at h
    rcases ih _ key c h with ⟨q, hq, hname, hc⟩ | hinit
    · exact Or.inl ⟨q, List.mem_cons_of_mem p hq, hname, hc⟩
    · by_cases hk : key = p.name
      · rw [if_pos hk] at hinit
        exact Or.inl ⟨p, List.mem_cons_self p rest, hk.symm,
          (Option.some.inj hinit).symm⟩
      · rw [if_neg hk] at hinit
        exact Or.inr hinit

theorem onBeginBrowserInfo_none :
    ∀ (projects : List Project)
      (init : String → Option BrowserContext) (key : String),
      (projects.foldl
        (fun info p => fun key =>
          if key = p.name then some (mkBrowserContext p) else info key)
        init) key = none ↔
      ((∀ p ∈ projects, p.name ≠ key) ∧ init key = none) := by
  intro projects
  induction projects with
  | nil => intro init key; simp
  | cons p rest ih =>
    intro init key
    rw [List.foldl_cons, ih]
    constructor
    · rintro ⟨hrest, hstep⟩
      by_cases hk : key = p.name
      · rw [if_pos hk] at hstep
        cases hstep
      · rw [if_neg hk] at hstep
        refine ⟨?_, hstep⟩
        intro q hq
        rcases List.mem_cons.mp hq with rfl | hmem
        · exact fun hqn => hk hqn.symm
        · exact hrest q hmem
    · rintro ⟨hall, hinit⟩
      have hk : key ≠ p.name :=
        fun hkk => hall p (List.mem_cons_self p rest) hkk.symm
      exact ⟨fun q hq => hall q (List.mem_cons_of_mem p hq),
        by rw [if_neg hk]; exact hinit⟩

/-- C10: every browser context stored at run-begin is the `onBegin` literal
for some project with that name — so omitted/falsy `use` settings become
the concrete defaults `headless = false`,
`viewport = {width: 1280, height: 720}`, `isMobile = false`,
`hasTouch = false`, and every stored context carries a concrete viewport —
and the test-end lookup yields the empty context exactly when no project
of that name was stored. -/
theorem onBegin_browser_defaults (projects : List Project) (key : String) :
    (∀ c, onBeginBrowserInfo projects key = some c →
      ∃ p ∈ projects, p.name = key ∧ c = mkBrowserContext p) ∧
    (onBeginBrowserInfo projects key = none ↔
      ∀ p ∈ projects, p.name ≠ key) ∧
    (∀ p : Project,
      (p.use.headless = none → (mkBrowserContext p).headless = false) ∧
      (p.use.viewport = none →
        (mkBrowserContext p).viewport = Viewport.mk 1280 720) ∧
      (p.use.isMobile = none → (mkBrowserContext p).isMobile = false) ∧
      (p.use.hasTouch = none → (mkBrowserContext p).hasTouch = false)) ∧
    (∀ c, lookupBrowser (onBeginBrowserInfo projects) key =
        BrowserLookup.ctx c ↔ onBeginBrowserInfo projects key = some c) ∧
    (lookupBrowser (onBeginBrowserInfo projects) key =
        BrowserLookup.empty ↔ onBeginBrowserInfo projects key = none) := by
  refine ⟨?_, ?_, ?_, ?_, ?_⟩
  · intro c h
    rcases onBeginBrowserInfo_some projects _ key c h with hp | hinit
    · exact hp
    · cases hinit
  · rw [onBeginBrowserInfo, onBeginBrowserInfo_none]
    simp
  · intro p
    refine ⟨?_, ?_, ?_, ?_⟩ <;> intro h <;> simp [mkBrowserContext, h]
  · intro c
    rw [lookupBrowser]
    cases h : onBeginBrowserInfo projects key <;> simp [h]
  · rw [lookupBrowser]
    cases h : onBeginBrowserInfo projects key <;> simp [h]

theorem onBegin_browser_defaults_witness :
    ∃ p ∈ [Project.mk "chromium" (ProjectUse.mk none none none none)],
      p.name = "chromium" ∧
      BrowserContext.mk "chromium" false (Viewport.mk 1280 720) false
        false = mkBrowserContext p :=
  (onBegin_browser_defaults
    [Project.mk "chromium" (ProjectUse.mk none none none none)]
    "chromium").1
    (BrowserContext.mk "chromium" false (Viewport.mk 1280 720) false false)
    (by decide)
